import Mathlib

/-!
# Verification of the contemplation gap-extraction engine

A shallow embedding of the gap extractor (`normalizeText`, `stripContextBlocks`,
`extractGapsFromText`, `identifyGaps`) together with proofs and refutations of the
specified properties.  Text is modelled as `List Char`; the JavaScript regular
expressions used by the source are embedded as abstract syntax trees (`RE`) and run
by a backtracking matcher (`matchR`) that mirrors the JS semantics the source relies
on: ordered alternation, greedy and lazy quantifiers, lookahead, `.` not matching
line terminators, and case-insensitive comparison for the `i`-flagged patterns.
The matcher takes an explicit fuel argument; call sites supply fuel that dominates
the backtracking depth for the inputs considered, so fuel exhaustion never occurs in
any concrete evaluation below, and none of the universally quantified theorems
depend on which matches are produced.
-/

set_option maxRecDepth 8000

/-- JS `\s` whitespace (the code points relevant to this code base). -/
def isWsChar (c : Char) : Bool :=
  c = ' ' || c = '\t' || c = '\n' || c = '\r' || c = '\x0b' || c = '\x0c'

/-- Character classes occurring in the regular expressions of the source. -/
inductive CC where
  /-- `[\s\S]` : any character. -/
  | any
  /-- `.` : any character except a line terminator. -/
  | dot
  /-- `[^\n]`. -/
  | nonNl
  /-- `\s`. -/
  | ws
  /-- `\d`. -/
  | digit
  /-- `[A-Z]`. -/
  | upper
  /-- A literal character under the `i` flag (case-insensitive). -/
  | chi (c : Char)
  /-- A literal character, case-sensitive. -/
  | chs (c : Char)
deriving DecidableEq

def ccMatch : CC → Char → Bool
  | .any, _ => true
  | .dot, c => !(c = '\n' || c = '\r' || c = '\u2028' || c = '\u2029')
  | .nonNl, c => c ≠ '\n'
  | .ws, c => isWsChar c
  | .digit, c => '0' ≤ c && c ≤ '9'
  | .upper, c => 'A' ≤ c && c ≤ 'Z'
  | .chi a, c => a.toLower = c.toLower
  | .chs a, c => a = c

/-- Regular-expression ASTs: the fragment of JS regex syntax used by the source. -/
inductive RE where
  | eps
  | cc (c : CC)
  | seq (a b : RE)
  | alt (a b : RE)
  /-- `a*` (with `lazy = true` for `a*?`). -/
  | star (a : RE) (lazy : Bool)
  /-- Lookahead `(?= a)`. -/
  | look (a : RE)
  /-- `$` without the `m` flag: end of input. -/
  | eos
deriving DecidableEq

/-- One step of the backtracking matcher.  `ih` performs strictly deeper matching.
The continuation receives the unconsumed suffix; ordered alternation tries the left
branch first, a lazy star tries zero iterations first, a greedy star tries an
iteration first, exactly as in the JS engine. -/
def matchStep (ih : RE → List Char → (List Char → Option (List Char)) → Option (List Char)) :
    RE → List Char → (List Char → Option (List Char)) → Option (List Char) :=
  fun re s k =>
    match re with
    | .eps => k s
    | .cc c =>
      match s with
      | [] => none
      | a :: rest => if ccMatch c a then k rest else none
    | .seq a b => ih a s (fun t => ih b t k)
    | .alt a b =>
      match ih a s k with
      | some r => some r
      | none => ih b s k
    | .star a lz =>
      if lz then
        match k s with
        | some r => some r
        | none => ih a s (fun t => ih (.star a lz) t k)
      else
        match ih a s (fun t => ih (.star a lz) t k) with
        | some r => some r
        | none => k s
    | .look a =>
      match ih a s some with
      | some _ => k s
      | none => none
    | .eos =>
      match s with
      | [] => k s
      | _ => none

/-- Fueled backtracking matcher (defined with `Nat.rec` so that concrete
evaluations reduce in the kernel one fuel step at a time). -/
def matchR (fuel : Nat) : RE → List Char → (List Char → Option (List Char)) → Option (List Char) :=
  Nat.rec (motive := fun _ => RE → List Char → (List Char → Option (List Char)) → Option (List Char))
    (fun _ _ _ => none) (fun _ ih => matchStep ih) fuel

/-- Fuel that dominates the backtracking depth of every pattern of the source on `s`. -/
def reFuel (s : List Char) : Nat := 4 * s.length + 1000

/-- Try to match `re` at the start of `s`; returns the number of consumed characters. -/
def matchAt (re : RE) (s : List Char) : Option Nat :=
  match matchR (reFuel s) re s some with
  | some rest => some (s.length - rest.length)
  | none => none

/-- JS `re.test(s)` for a `^`-anchored pattern (anchor removed from the AST). -/
def reTestAt0 (re : RE) (s : List Char) : Bool :=
  (matchAt re s).isSome

/-- JS `re.test(s)` for an unanchored pattern: search at every position. -/
def reTest (re : RE) : List Char → Bool
  | [] => (matchAt re []).isSome
  | s@(_ :: rest) => (matchAt re s).isSome || reTest re rest

/-- All matches of a `g`-flagged pattern in order (the JS `exec` loop): leftmost
match, then continue after its end; a zero-width match advances by one. -/
def findMatchesGo (re : RE) : Nat → List Char → List (List Char)
  | 0, _ => []
  | _, [] => []
  | fuel + 1, s@(_ :: rest) =>
    match matchAt re s with
    | some n =>
      if n = 0 then findMatchesGo re fuel rest
      else s.take n :: findMatchesGo re fuel (s.drop n)
    | none => findMatchesGo re fuel rest

def findMatches (re : RE) (s : List Char) : List (List Char) :=
  findMatchesGo re (s.length + 1) s

/-- JS `s.replace(re, '')` for a `g`-flagged pattern: delete every match. -/
def replaceAllGo (re : RE) : Nat → List Char → List Char
  | 0, s => s
  | _, [] => []
  | fuel + 1, s@(c :: rest) =>
    match matchAt re s with
    | some n =>
      if n = 0 then c :: replaceAllGo re fuel rest
      else replaceAllGo re fuel (s.drop n)
    | none => c :: replaceAllGo re fuel rest

def replaceAll (re : RE) (s : List Char) : List Char :=
  replaceAllGo re (s.length + 1) s

/-- Sequencing of a list of regexes. -/
def seqR : List RE → RE
  | [] => .eps
  | [r] => r
  | r :: rs => .seq r (seqR rs)

/-- Ordered alternation of a list of regexes (left branch preferred, as in JS). -/
def reAlts : List RE → RE
  | [] => .eps
  | [r] => r
  | r :: rs => .alt r (reAlts rs)

/-- Case-insensitive literal string. -/
def litI (s : String) : RE :=
  s.data.foldr (fun c acc => .seq (.cc (.chi c)) acc) .eps

/-- Case-sensitive literal string. -/
def litCS (s : String) : RE :=
  s.data.foldr (fun c acc => .seq (.cc (.chs c)) acc) .eps

/-- `(?:s1|s2|...)` over case-insensitive literals. -/
def altI (ss : List String) : RE := reAlts (ss.map litI)

/-- `(?:s1|s2|...)` over case-sensitive literals. -/
def altCS (ss : List String) : RE := reAlts (ss.map litCS)

/-- `r?` (greedy option). -/
def reOpt (r : RE) : RE := .alt r .eps

/-- `r+` (greedy). -/
def rePlus (r : RE) : RE := .seq r (.star r false)

/-- `r{n}`. -/
def nseq : Nat → RE → RE
  | 0, _ => .eps
  | n + 1, r => .seq r (nseq n r)

/-- `r{n,}?` (lazy). -/
def lazyAtLeast (n : Nat) (r : RE) : RE := .seq (nseq n r) (.star r true)

/-- `r{n,}` (greedy). -/
def greedyAtLeast (n : Nat) (r : RE) : RE := .seq (nseq n r) (.star r false)

def wsPlus : RE := rePlus (.cc .ws)
def dotRe : RE := RE.cc .dot
/-- `(?:\.|$)`. -/
def endOrDot : RE := .alt (.cc (.chi '.')) .eos

/-!
## The pattern corpus of the source

Each definition transcribes one regular-expression literal of the source file.
Apostrophes in literals are written `\x27`, backticks `\x60`.
-/

/-- `GAP_PATTERNS`: the 14 trigger patterns (source lines 17-34), in order. -/
def GAP_PATTERNS : List RE :=
  [ -- I wonder\s+(.{15,}?)(?:\.|$)
    seqR [litI "I wonder", wsPlus, lazyAtLeast 15 dotRe, endOrDot],
    -- I\x27m curious\s+(?:about\s+)?(.{15,}?)(?:\.|$)
    seqR [litI "I\x27m curious", wsPlus, reOpt (seqR [litI "about", wsPlus]),
          lazyAtLeast 15 dotRe, endOrDot],
    -- I don\x27t (?:fully )?understand\s+(.{15,}?)(?:\.|$)
    seqR [litI "I don\x27t ", reOpt (litI "fully "), litI "understand", wsPlus,
          lazyAtLeast 15 dotRe, endOrDot],
    -- I (?:need|want) to (?:learn|know|explore|understand)\s+(.{15,}?)(?:\.|$)
    seqR [litI "I ", altI ["need", "want"], litI " to ",
          altI ["learn", "know", "explore", "understand"], wsPlus,
          lazyAtLeast 15 dotRe, endOrDot],
    -- I\x27m not sure (?:about |whether |if |how |why )(.{15,}?)(?:\.|$)
    seqR [litI "I\x27m not sure ", altI ["about ", "whether ", "if ", "how ", "why "],
          lazyAtLeast 15 dotRe, endOrDot],
    -- (?:how|why|what|when|where) (?:does|do|did|is|are|was|were|would|could|should|can|might) .{10,}\?
    seqR [altI ["how", "why", "what", "when", "where"], .cc (.chi ' '),
          altI ["does", "do", "did", "is", "are", "was", "were", "would", "could",
                "should", "can", "might"],
          .cc (.chi ' '), greedyAtLeast 10 dotRe, .cc (.chi '?')],
    -- ich frage mich\s+(.{15,}?)(?:\.|$)
    seqR [litI "ich frage mich", wsPlus, lazyAtLeast 15 dotRe, endOrDot],
    -- ich (?:muss|will) (?:lernen|wissen|verstehen|erfahren)\s+(.{15,}?)(?:\.|$)
    seqR [litI "ich ", altI ["muss", "will"], .cc (.chi ' '),
          altI ["lernen", "wissen", "verstehen", "erfahren"], wsPlus,
          lazyAtLeast 15 dotRe, endOrDot],
    -- ich bin mir (?:nicht )?(?:sicher|klar|bewusst)(?:,? ob | wie | warum | was )(.{10,}?)(?:\.|$)
    seqR [litI "ich bin mir ", reOpt (litI "nicht "), altI ["sicher", "klar", "bewusst"],
          reAlts [seqR [reOpt (.cc (.chi ',')), litI " ob "],
                  litI " wie ", litI " warum ", litI " was "],
          lazyAtLeast 10 dotRe, endOrDot],
    -- ich verstehe (?:nicht |kaum )?(.{15,}?)(?:\.|$)
    seqR [litI "ich verstehe ", reOpt (altI ["nicht ", "kaum "]),
          lazyAtLeast 15 dotRe, endOrDot],
    -- wie (?:funktioniert|geht|kann|soll|musst) .{10,}\?
    seqR [litI "wie ", altI ["funktioniert", "geht", "kann", "soll", "musst"],
          .cc (.chi ' '), greedyAtLeast 10 dotRe, .cc (.chi '?')],
    -- warum .{10,}\?
    seqR [litI "warum ", greedyAtLeast 10 dotRe, .cc (.chi '?')],
    -- was (?:bedeutet|ist|heißt|macht) .{10,}\?
    seqR [litI "was ", altI ["bedeutet", "ist", "heißt", "macht"], .cc (.chi ' '),
          greedyAtLeast 10 dotRe, .cc (.chi '?')],
    -- keine ahnung (?:wie|warum|was|wo|wann) .{10,}
    seqR [litI "keine ahnung ", altI ["wie", "warum", "was", "wo", "wann"],
          .cc (.chi ' '), greedyAtLeast 10 dotRe] ]

/-- `FILTER_PATTERNS` (source lines 37-46): `^`-anchored, tested with `reTestAt0`. -/
def FILTER_PATTERNS : List RE :=
  [ altI ["would you", "do you", "can you", "should I", "shall I", "could I",
          "want me to", "let me"],
    altI ["is that", "does that", "are you", "how about", "what if I"],
    altI ["ready", "okay", "alright", "sure", "got it", "understood"],
    altI ["those", "these", "that", "what about those", "ever notice", "imagine",
          "picture this"],
    altI ["isn\x27t it", "aren\x27t they", "doesn\x27t it", "don\x27t they",
          "wouldn\x27t it", "won\x27t they"],
    altI ["who doesn\x27t", "who wouldn\x27t", "who hasn\x27t"],
    altI ["sound familiar", "ring a bell", "know the feeling"] ]

/-- `DOCUMENT_NOISE_PATTERNS` (source lines 49-54): unanchored, tested with `reTest`. -/
def DOCUMENT_NOISE_PATTERNS : List RE :=
  [ seqR [altI ["chapter", "section", "page", "figure", "table"], wsPlus, .cc .digit],
    altI ["©", "copyright", "all rights reserved", "terms of service", "privacy policy"],
    altI ["click here", "learn more", "sign up", "subscribe", "download now", "get started"],
    .alt (litI "www.") (seqR [litI "http", reOpt (.cc (.chi 's')), litI "://"]) ]

/-- The wh-word + auxiliary heuristic of the standalone-question pass (source line 142). -/
def SUBJECT_VERB_PATTERN : RE :=
  seqR [altI ["how", "why", "what", "where", "when", "who", "which"], wsPlus,
        altI ["does", "do", "did", "is", "are", "was", "were", "would", "could",
              "should", "can", "might", "will", "has", "have", "had"]]

/-- The pronoun + verb heuristic of the standalone-question pass (source line 143). -/
def PRONOUN_VERB_PATTERN : RE :=
  seqR [altI ["I", "we", "you"], wsPlus,
        altI ["wonder", "don\x27t", "need", "want", "should", "could"]]

/-- `CONTEXT_BLOCK_PATTERN` (source line 57):
`\[(?:CONTINUITY CONTEXT|STABILITY CONTEXT|GROWTH VECTORS|MEMORY INTEGRATION)\]`
`[\s\S]*?(?=\[(?:CONTINUITY|STABILITY|GROWTH|MEMORY)|$)`, flags `gi`. -/
def CONTEXT_BLOCK_PATTERN : RE :=
  seqR [.cc (.chi '['),
        altI ["CONTINUITY CONTEXT", "STABILITY CONTEXT", "GROWTH VECTORS",
              "MEMORY INTEGRATION"],
        .cc (.chi ']'),
        .star (.cc .any) true,
        .look (.alt (.seq (.cc (.chi '['))
                          (altI ["CONTINUITY", "STABILITY", "GROWTH", "MEMORY"]))
                    .eos)]

/-- `TIMESTAMP_PREFIX` (source line 60, case-sensitive, `^`-anchored):
`^\[(?:Mon|Tue|Wed|Thu|Fri|Sat|Sun) \d{4}-\d{2}-\d{2} \d{2}:\d{2} [A-Z]+\]\s*`. -/
def TIMESTAMP_PATTERN : RE :=
  seqR [.cc (.chs '['),
        altCS ["Mon", "Tue", "Wed", "Thu", "Fri", "Sat", "Sun"],
        .cc (.chs ' '), nseq 4 (.cc .digit), .cc (.chs '-'), nseq 2 (.cc .digit),
        .cc (.chs '-'), nseq 2 (.cc .digit), .cc (.chs ' '), nseq 2 (.cc .digit),
        .cc (.chs ':'), nseq 2 (.cc .digit), .cc (.chs ' '),
        rePlus (.cc .upper), .cc (.chs ']'), .star (.cc .ws) false]

/-- Fenced code blocks, `\x60\x60\x60[\s\S]*?\x60\x60\x60` with flag `g` (source line 185). -/
def CODE_FENCE_PATTERN : RE :=
  seqR [litCS "\x60\x60\x60", .star (.cc .any) true, litCS "\x60\x60\x60"]

/-- Markdown table rows, `\|[^\n]+\|` with flag `g` (source line 186). -/
def TABLE_ROW_PATTERN : RE :=
  seqR [.cc (.chs '|'), rePlus (.cc .nonNl), .cc (.chs '|')]

/-!
## Text utilities
-/

/-- JS `String.prototype.trim`. -/
def trimChars (l : List Char) : List Char :=
  ((l.dropWhile isWsChar).reverse.dropWhile isWsChar).reverse

/-- Worker for `collapseWs`; the flag records whether the previous character was
whitespace (i.e. we are inside a run already replaced by a single space). -/
def collapseWsGo : Bool → List Char → List Char
  | _, [] => []
  | prevWs, c :: rest =>
    if isWsChar c then
      if prevWs then collapseWsGo true rest
      else ' ' :: collapseWsGo true rest
    else c :: collapseWsGo false rest

/-- JS `s.replace(/\s+/g, ' ')`: collapse every whitespace run to a single space. -/
def collapseWs (l : List Char) : List Char := collapseWsGo false l

/-- JS `s.toLowerCase()` restricted to the alphabet of this code base. -/
def lowerChars (l : List Char) : List Char := l.map Char.toLower

/-- JS `s.split('\n')`. -/
def splitLinesGo : List Char → List Char → List (List Char)
  | [], acc => [acc.reverse]
  | c :: rest, acc =>
    if c = '\n' then acc.reverse :: splitLinesGo rest []
    else splitLinesGo rest (c :: acc)

def splitLines (l : List Char) : List (List Char) := splitLinesGo l []

/-- `[.!?]`. -/
def isTermPunct (c : Char) : Bool := c = '.' || c = '!' || c = '?'

/-- Worker for `splitSentences`, JS `s.split(/(?<=[.!?])\s+/)`.  `inSep` records
whether we are consuming a whitespace separator run; `prevPunct` whether the last
character appended to the accumulator was sentence-terminating punctuation. -/
def splitSG : Bool → Bool → List Char → List Char → List (List Char)
  | true, _, [], _ => [[]]
  | true, _, c :: rest, _ =>
    if isWsChar c then splitSG true false rest []
    else splitSG false (isTermPunct c) rest [c]
  | false, _, [], acc => [acc.reverse]
  | false, prevPunct, c :: rest, acc =>
    if prevPunct && isWsChar c then acc.reverse :: splitSG true false rest []
    else splitSG false (isTermPunct c) rest (c :: acc)

/-- JS `s.split(/(?<=[.!?])\s+/)`: split on whitespace runs that immediately follow
sentence-terminating punctuation (the separator is dropped). -/
def splitSentences (s : List Char) : List (List Char) := splitSG false false s []

/-- JS `hay.includes(needle)` on strings: substring test. -/
def containsSub : List Char → List Char → Bool
  | n, [] => n.isPrefixOf []
  | n, h@(_ :: rest) => n.isPrefixOf h || containsSub n rest

/-- JS `arr.slice(-n)`. -/
def lastN (n : Nat) (l : List α) : List α := l.drop (l.length - n)

/-- Join a list of strings with a separator (JS `Array.prototype.join`). -/
def joinSep (sep : List Char) : List (List Char) → List Char
  | [] => []
  | [x] => x
  | x :: rest => x ++ sep ++ joinSep sep rest

/-!
## Data model

JS values are modelled just finely enough to capture the shapes the source
distinguishes.  A part's `text`/`content` fields are modelled as `String`, with
`""` standing for an absent or otherwise falsy field (the `||` chains of the source
only inspect truthiness, so this quotient is faithful).  A `null` or `undefined`
entry in the message list is `MsgEntry.null`; reading `.role` from it throws in JS,
which the embedding renders as `Except.error ()`.
-/

/-- One element of a structured-content array (`msg.content` in array form). -/
inductive JPart where
  /-- A `null`/`undefined` part (JS `part?.text` yields `undefined`). -/
  | null
  /-- An object part with (possibly falsy) `text` and `content` fields. -/
  | fields (text : String) (content : String)
deriving DecidableEq

/-- The `content` field of a message. -/
inductive JContent where
  /-- A plain string. -/
  | str (s : String)
  /-- An array of parts. -/
  | arr (parts : List JPart)
  /-- `null`/`undefined`/absent content. -/
  | null
  /-- Any other JS value: its `String(...)` coercion and its truthiness. -/
  | other (coerced : String) (truthy : Bool)
deriving DecidableEq

/-- A message object; `role = none` models an absent/undefined role field. -/
structure MsgObj where
  role : Option String
  content : JContent
deriving DecidableEq

/-- An entry of the message list, including malformed shapes. -/
inductive MsgEntry where
  /-- A proper object. -/
  | obj (m : MsgObj)
  /-- `null` or `undefined`: reading `.role` throws a TypeError. -/
  | null
  /-- A non-object primitive (its truthiness); `.role` reads as `undefined`. -/
  | prim (truthy : Bool)
deriving DecidableEq

/-- `part?.text || part?.content || ''` (source line 66). -/
def partText : JPart → List Char
  | .null => []
  | .fields text content =>
    if text ≠ "" then text.data
    else if content ≠ "" then content.data
    else []

/-- `normalizeText` (source lines 62-69). -/
def normalizeText : MsgEntry → List Char
  | .null => []
  | .prim _ => []
  | .obj m =>
    match m.content with
    | .str s => s.data
    | .arr parts => joinSep [' '] (parts.map partText)
    | .null => []
    | .other coerced truthy => if truthy then coerced.data else []

/-- The metadata-line test of `stripContextBlocks` (source lines 81-91): keep a line
iff its trimmed form starts with none of the fixed injection-marker prefixes. -/
def lineOk (line : List Char) : Bool :=
  let trimmed := trimChars line
  !(("Entropy:".data).isPrefixOf trimmed) &&
  !(("Principles:".data).isPrefixOf trimmed) &&
  !(("Session:".data).isPrefixOf trimmed) &&
  !(("Topics:".data).isPrefixOf trimmed) &&
  !(("Speak from this memory".data).isPrefixOf trimmed) &&
  !(("- They told you:".data).isPrefixOf trimmed) &&
  !(("  You said:".data).isPrefixOf trimmed) &&
  !(("You remember these earlier".data).isPrefixOf trimmed)

/-- `text.replace(TIMESTAMP_PREFIX, '')`: the pattern is `^`-anchored and has no
`g` flag, so at most one match, at position 0. -/
def stripTimestamp (t : List Char) : List Char :=
  match matchAt TIMESTAMP_PATTERN t with
  | some n => t.drop n
  | none => t

/-- `stripContextBlocks` (source lines 76-95). -/
def stripContextBlocks (text : List Char) : List Char :=
  let c1 := replaceAll CONTEXT_BLOCK_PATTERN text
  let c2 := stripTimestamp c1
  trimChars (joinSep ['\n'] ((splitLines c2).filter lineOk))

/-!
## The gap matcher
-/

/-- Normalized form used for deduplication (source line 117):
lowercase, whitespace runs collapsed to single spaces. -/
def normalizeGap (g : List Char) : List Char := collapseWs (lowerChars g)

/-- State of the extraction loops: accepted gaps, the dedup set (as the list of
normalized forms already accepted), and whether the cap was hit (early return). -/
structure ExtractSt where
  gaps : List (List Char)
  seen : List (List Char)
  done : Bool
deriving DecidableEq

/-- Pass 1 of `extractGapsFromText` (source lines 106-124), folded over the
concatenated match lists of all patterns: trim, minimum length 15, conversational
filter, dedup, push, early return at the cap. -/
def pass1Go : List (List Char) → List (List Char) → List (List Char) → Int → ExtractSt
  | [], gaps, seen, _ => ⟨gaps, seen, false⟩
  | c :: rest, gaps, seen, maxCount =>
    let gap := trimChars c
    if gap.length < 15 then pass1Go rest gaps seen maxCount
    else if FILTER_PATTERNS.any (fun f => reTestAt0 f gap) then pass1Go rest gaps seen maxCount
    else
      let normalized := normalizeGap gap
      if normalized ∈ seen then pass1Go rest gaps seen maxCount
      else if (((gaps ++ [gap]).length : Int) ≥ maxCount) then ⟨gaps ++ [gap], seen ++ [normalized], true⟩
      else pass1Go rest (gaps ++ [gap]) (seen ++ [normalized]) maxCount

/-- Pass 2 of `extractGapsFromText` (source lines 128-153), folded over the
sentence units: must end in `?`, minimum length 30, conversational filter,
document-noise filter, subject+verb heuristic, dedup, push, early return. -/
def pass2Go : List (List Char) → List (List Char) → List (List Char) → Int → ExtractSt
  | [], gaps, seen, _ => ⟨gaps, seen, false⟩
  | sen :: rest, gaps, seen, maxCount =>
    let trimmed := trimChars sen
    if trimmed.getLast? ≠ some '?' then pass2Go rest gaps seen maxCount
    else if trimmed.length < 30 then pass2Go rest gaps seen maxCount
    else if FILTER_PATTERNS.any (fun f => reTestAt0 f trimmed) then pass2Go rest gaps seen maxCount
    else if DOCUMENT_NOISE_PATTERNS.any (fun f => reTest f trimmed) then pass2Go rest gaps seen maxCount
    else if !(reTest SUBJECT_VERB_PATTERN trimmed) && !(reTest PRONOUN_VERB_PATTERN trimmed) then
      pass2Go rest gaps seen maxCount
    else
      let normalized := normalizeGap trimmed
      if normalized ∈ seen then pass2Go rest gaps seen maxCount
      else if (((gaps ++ [trimmed]).length : Int) ≥ maxCount) then ⟨gaps ++ [trimmed], seen ++ [normalized], true⟩
      else pass2Go rest (gaps ++ [trimmed]) (seen ++ [normalized]) maxCount

/-- `extractGapsFromText` (source lines 101-156). -/
def extractGapsFromText (text : List Char) (maxCount : Int) : List (List Char) :=
  let st1 := pass1Go (GAP_PATTERNS.flatMap fun p => findMatches p text) [] [] maxCount
  if st1.done then st1.gaps
  else (pass2Go (splitSentences text) st1.gaps st1.seen maxCount).gaps

/-!
## The entry point
-/

/-- The numeric literal `0.5` of the source (the default entropy threshold),
written as an explicit rational so that comparisons reduce computationally
(`Rat.div` is irreducible in this toolchain). -/
def ratHalf : Rat := ⟨1, 2, by decide, by decide⟩

theorem ratHalf_eq : ratHalf = 1 / 2 := by
  unfold ratHalf
  rw [Rat.mk'_eq_divInt, Rat.divInt_eq_div]
  norm_num

/-- The numeric literal `0.8` used by the specification scenarios. -/
def ratFourFifths : Rat := ⟨4, 5, by decide, by decide⟩

theorem ratFourFifths_eq : ratFourFifths = 4 / 5 := by
  unfold ratFourFifths
  rw [Rat.mk'_eq_divInt, Rat.divInt_eq_div]
  norm_num

/-- The extraction configuration object; `none` models an absent key. -/
structure ExtractionConfig where
  entropyThreshold : Option Rat
  keywords : Option (List String)
  maxGapsPerExchange : Option Int
deriving DecidableEq

/-- One output record of `identifyGaps` (source lines 205-212). -/
structure GapRecord where
  id : String
  question : String
  source : String
  context : String
  entropy : Rat
deriving DecidableEq

/-- JS `v || d` on an integer-valued configuration key (`0` is falsy). -/
def jsOrInt : Option Int → Int → Int
  | none, d => d
  | some v, d => if v = 0 then d else v

/-- JS `v || d` on a string (`''` is falsy). -/
def jsOrStr : Option String → String → String
  | none, d => d
  | some s, d => if s = "" then d else s

/-- The `conversationParts` loop of `identifyGaps` (source lines 175-191).
Reading `.role` off a `null` entry throws, rendered as `Except.error ()`. -/
def collectParts : List MsgEntry → Except Unit (List (List Char))
  | [] => .ok []
  | .null :: _ => .error ()
  | .prim _ :: rest => collectParts rest
  | .obj m :: rest =>
    if m.role ≠ some "user" then collectParts rest
    else
      let text := normalizeText (.obj m)
      if text = [] then collectParts rest
      else
        let cleaned := replaceAll TABLE_ROW_PATTERN
          (replaceAll CODE_FENCE_PATTERN (stripContextBlocks text))
        if cleaned.length > 10 then (collectParts rest).map (cleaned :: ·)
        else collectParts rest

/-- `conversationParts.join('\n\n')` (source line 193). -/
def conversationTextOf (parts : List (List Char)) : List Char :=
  joinSep ['\n', '\n'] parts

/-- `keywords.some(k => lowered.includes(String(k).toLowerCase()))` (source line 198). -/
def keywordHitOf (keywords : List String) (lowered : List Char) : Bool :=
  keywords.any fun k => containsSub (lowerChars k.data) lowered

/-- `questions.map((question, idx) => ({...}))` (source lines 205-212): wrap each
extracted question into a record; `now` is the value of `Date.now()` and `isoSrc`
the already-computed default source tag. -/
def wrapRecords (now : Nat) (src : String) (ctx : String) (e : Rat) :
    Nat → List (List Char) → List GapRecord
  | _, [] => []
  | idx, q :: rest =>
    { id := "gap_" ++ toString now ++ "_" ++ toString idx,
      question := String.mk q,
      source := src,
      context := ctx,
      entropy := e } :: wrapRecords now src ctx e (idx + 1) rest

/-- `identifyGaps` (source lines 164-213).  `messages = none` models a missing
`messages` argument; `now` and `isoNow` model the two clock reads (`Date.now()`
and `new Date().toISOString()`), which in JS are ambient effects. -/
def identifyGaps (messages : Option (List MsgEntry)) (entropy : Rat)
    (extractionConfig : ExtractionConfig) (source : Option String)
    (now : Nat) (isoNow : String) : Except Unit (List GapRecord) :=
  match collectParts (lastN 6 (messages.getD [])) with
  | .error e => .error e
  | .ok conversationParts =>
    let conversationText := conversationTextOf conversationParts
    if conversationText = [] then .ok []
    else if entropy < extractionConfig.entropyThreshold.getD ratHalf ∧
            keywordHitOf (extractionConfig.keywords.getD []) (lowerChars conversationText) = false then
      .ok []
    else
      .ok (wrapRecords now (jsOrStr source ("exchange_" ++ isoNow))
            (String.mk (conversationText.take 1200)) entropy 0
            (extractGapsFromText conversationText
              (jsOrInt extractionConfig.maxGapsPerExchange 2)))

/-- Projection of a result onto its sequence of extracted gap question strings. -/
def gapQuestions (r : Except Unit (List GapRecord)) : Except Unit (List String) :=
  r.map (List.map GapRecord.question)

/-- The `id` of the first record of a successful result, if any. -/
def firstId : Except Unit (List GapRecord) → Option String
  | .ok (g :: _) => some g.id
  | _ => none

/-!
## Helper lemmas
-/

theorem wrapRecords_length (l : List (List Char)) :
    ∀ (now : Nat) (src ctx : String) (e : Rat) (idx : Nat),
      (wrapRecords now src ctx e idx l).length = l.length := by
  induction l with
  | nil => intro now src ctx e idx; rfl
  | cons q rest ih => intro now src ctx e idx; simp [wrapRecords, ih]

theorem wrapRecords_questions (l : List (List Char)) :
    ∀ (now : Nat) (src ctx : String) (e : Rat) (idx : Nat),
      (wrapRecords now src ctx e idx l).map GapRecord.question = l.map String.mk := by
  induction l with
  | nil => intro now src ctx e idx; rfl
  | cons q rest ih => intro now src ctx e idx; simp [wrapRecords, ih]

theorem pass1Go_cap (cands : List (List Char)) :
    ∀ (gaps seen : List (List Char)) (mc : Int), (gaps.length : Int) < mc →
      (((pass1Go cands gaps seen mc).gaps.length : Int) ≤ mc ∧
        ((pass1Go cands gaps seen mc).done = false →
          ((pass1Go cands gaps seen mc).gaps.length : Int) < mc)) := by
  induction cands with
  | nil => intro gaps seen mc h; exact ⟨le_of_lt h, fun _ => h⟩
  | cons c rest ih =>
    intro gaps seen mc h
    simp only [pass1Go]
    split_ifs with h1 h2 h3 h4
    · exact ih gaps seen mc h
    · exact ih gaps seen mc h
    · exact ih gaps seen mc h
    · refine ⟨?_, by simp⟩
      simp only [List.length_append, List.length_cons, List.length_nil]
      push_cast
      omega
    · refine ih _ _ mc ?_
      simp only [List.length_append, List.length_cons, List.length_nil] at h4 ⊢
      push_cast at h4 ⊢
      omega

theorem pass2Go_cap (cands : List (List Char)) :
    ∀ (gaps seen : List (List Char)) (mc : Int), (gaps.length : Int) < mc →
      (((pass2Go cands gaps seen mc).gaps.length : Int) ≤ mc ∧
        ((pass2Go cands gaps seen mc).done = false →
          ((pass2Go cands gaps seen mc).gaps.length : Int) < mc)) := by
  induction cands with
  | nil => intro gaps seen mc h; exact ⟨le_of_lt h, fun _ => h⟩
  | cons c rest ih =>
    intro gaps seen mc h
    simp only [pass2Go]
    split_ifs with h1 h2 h3 h4 h5 h6 h7
    · exact ih gaps seen mc h
    · exact ih gaps seen mc h
    · exact ih gaps seen mc h
    · exact ih gaps seen mc h
    · exact ih gaps seen mc h
    · exact ih gaps seen mc h
    · refine ⟨?_, by simp⟩
      simp only [List.length_append, List.length_cons, List.length_nil]
      push_cast
      omega
    · refine ih _ _ mc ?_
      simp only [List.length_append, List.length_cons, List.length_nil] at h7 ⊢
      push_cast at h7 ⊢
      omega

theorem pass1Go_inv (cands : List (List Char)) :
    ∀ (gaps seen : List (List Char)) (mc : Int),
      (∀ g ∈ gaps, normalizeGap g ∈ seen) →
      gaps.Pairwise (fun a b => normalizeGap a ≠ normalizeGap b) →
      ((∀ g ∈ (pass1Go cands gaps seen mc).gaps,
          normalizeGap g ∈ (pass1Go cands gaps seen mc).seen) ∧
        (pass1Go cands gaps seen mc).gaps.Pairwise
          (fun a b => normalizeGap a ≠ normalizeGap b)) := by
  induction cands with
  | nil => intro gaps seen mc hsub hpw; exact ⟨hsub, hpw⟩
  | cons c rest ih =>
    intro gaps seen mc hsub hpw
    simp only [pass1Go]
    split_ifs with h1 h2 h3 h4
    · exact ih gaps seen mc hsub hpw
    · exact ih gaps seen mc hsub hpw
    · exact ih gaps seen mc hsub hpw
    · refine ⟨?_, ?_⟩
      · intro g hg
        rcases List.mem_append.mp hg with hg | hg
        · exact List.mem_append_left _ (hsub g hg)
        · rcases List.mem_singleton.mp hg with rfl
          exact List.mem_append_right _ (List.mem_singleton_self _)
      · refine List.pairwise_append.mpr ⟨hpw, List.pairwise_singleton _ _, ?_⟩
        intro a ha b hb
        rcases List.mem_singleton.mp hb with rfl
        intro heq
        exact h3 (heq ▸ hsub a ha)
    · refine ih _ _ mc ?_ ?_
      · intro g hg
        rcases List.mem_append.mp hg with hg | hg
        · exact List.mem_append_left _ (hsub g hg)
        · rcases List.mem_singleton.mp hg with rfl
          exact List.mem_append_right _ (List.mem_singleton_self _)
      · refine List.pairwise_append.mpr ⟨hpw, List.pairwise_singleton _ _, ?_⟩
        intro a ha b hb
        rcases List.mem_singleton.mp hb with rfl
        intro heq
        exact h3 (heq ▸ hsub a ha)

theorem pass2Go_inv (cands : List (List Char)) :
    ∀ (gaps seen : List (List Char)) (mc : Int),
      (∀ g ∈ gaps, normalizeGap g ∈ seen) →
      gaps.Pairwise (fun a b => normalizeGap a ≠ normalizeGap b) →
      ((∀ g ∈ (pass2Go cands gaps seen mc).gaps,
          normalizeGap g ∈ (pass2Go cands gaps seen mc).seen) ∧
        (pass2Go cands gaps seen mc).gaps.Pairwise
          (fun a b => normalizeGap a ≠ normalizeGap b)) := by
  induction cands with
  | nil => intro gaps seen mc hsub hpw; exact ⟨hsub, hpw⟩
  | cons c rest ih =>
    intro gaps seen mc hsub hpw
    simp only [pass2Go]
    split_ifs with h1 h2 h3 h4 h5 h6 h7
    · exact ih gaps seen mc hsub hpw
    · exact ih gaps seen mc hsub hpw
    · exact ih gaps seen mc hsub hpw
    · exact ih gaps seen mc hsub hpw
    · exact ih gaps seen mc hsub hpw
    · exact ih gaps seen mc hsub hpw
    · refine ⟨?_, ?_⟩
      · intro g hg
        rcases List.mem_append.mp hg with hg | hg
        · exact List.mem_append_left _ (hsub g hg)
        · rcases List.mem_singleton.mp hg with rfl
          exact List.mem_append_right _ (List.mem_singleton_self _)
      · refine List.pairwise_append.mpr ⟨hpw, List.pairwise_singleton _ _, ?_⟩
        intro a ha b hb
        rcases List.mem_singleton.mp hb with rfl
        intro heq
        exact h6 (heq ▸ hsub a ha)
    · refine ih _ _ mc ?_ ?_
      · intro g hg
        rcases List.mem_append.mp hg with hg | hg
        · exact List.mem_append_left _ (hsub g hg)
        · rcases List.mem_singleton.mp hg with rfl
          exact List.mem_append_right _ (List.mem_singleton_self _)
      · refine List.pairwise_append.mpr ⟨hpw, List.pairwise_singleton _ _, ?_⟩
        intro a ha b hb
        rcases List.mem_singleton.mp hb with rfl
        intro heq
        exact h6 (heq ▸ hsub a ha)

theorem extractGapsFromText_cap_core (text : List Char) (mc : Int) (h : 0 < mc) :
    ((extractGapsFromText text mc).length : Int) ≤ mc := by
  unfold extractGapsFromText
  dsimp only
  have h1 := pass1Go_cap (GAP_PATTERNS.flatMap fun p => findMatches p text) [] [] mc
    (by simpa using h)
  split_ifs with hd
  · exact h1.1
  · have hlt := h1.2 (by simpa using hd)
    exact (pass2Go_cap (splitSentences text) _ _ mc hlt).1

/-- With a non-positive cap, the first accepted candidate already meets the cap
check, so at most one gap is produced. -/
theorem pass1Go_single (cands : List (List Char)) :
    ∀ (seen : List (List Char)) (mc : Int), mc ≤ 1 →
      ((pass1Go cands [] seen mc).gaps.length ≤ 1 ∧
        ((pass1Go cands [] seen mc).done = false → (pass1Go cands [] seen mc).gaps = [])) := by
  induction cands with
  | nil => intro seen mc h; exact ⟨Nat.zero_le _, fun _ => rfl⟩
  | cons c rest ih =>
    intro seen mc h
    simp only [pass1Go]
    split_ifs with h1 h2 h3 h4
    · exact ih seen mc h
    · exact ih seen mc h
    · exact ih seen mc h
    · exact ⟨by simp, by simp⟩
    · exfalso
      simp only [List.length_append, List.length_cons, List.length_nil, List.nil_append] at h4
      push_cast at h4
      omega

theorem pass2Go_single (cands : List (List Char)) :
    ∀ (seen : List (List Char)) (mc : Int), mc ≤ 1 →
      ((pass2Go cands [] seen mc).gaps.length ≤ 1 ∧
        ((pass2Go cands [] seen mc).done = false → (pass2Go cands [] seen mc).gaps = [])) := by
  induction cands with
  | nil => intro seen mc h; exact ⟨Nat.zero_le _, fun _ => rfl⟩
  | cons c rest ih =>
    intro seen mc h
    simp only [pass2Go]
    split_ifs with h1 h2 h3 h4 h5 h6 h7
    · exact ih seen mc h
    · exact ih seen mc h
    · exact ih seen mc h
    · exact ih seen mc h
    · exact ih seen mc h
    · exact ih seen mc h
    · exact ⟨by simp, by simp⟩
    · exfalso
      simp only [List.length_append, List.length_cons, List.length_nil, List.nil_append] at h7
      push_cast at h7
      omega

theorem collectParts_ok (msgs : List MsgEntry) (h : ∀ m ∈ msgs, m ≠ MsgEntry.null) :
    ∃ ps, collectParts msgs = .ok ps := by
  induction msgs with
  | nil => exact ⟨[], rfl⟩
  | cons m rest ih =>
    have hrest : ∀ x ∈ rest, x ≠ MsgEntry.null := fun x hx => h x (List.mem_cons_of_mem _ hx)
    match m with
    | .null => exact absurd rfl (h _ (List.mem_cons_self _ _))
    | .prim t => exact ih hrest
    | .obj o =>
      obtain ⟨ps, hps⟩ := ih hrest
      simp only [collectParts]
      split_ifs with h1 h2 h3
      · exact ⟨ps, hps⟩
      · exact ⟨ps, hps⟩
      · exact ⟨_, by rw [hps]; rfl⟩
      · exact ⟨ps, hps⟩

theorem extractGapsFromText_single (text : List Char) (mc : Int) (h : mc ≤ 1) :
    (extractGapsFromText text mc).length ≤ 1 := by
  unfold extractGapsFromText
  dsimp only
  have h1 := pass1Go_single (GAP_PATTERNS.flatMap fun p => findMatches p text) [] mc h
  split_ifs with hd
  · exact h1.1
  · have hnil := h1.2 (by simpa using hd)
    rw [hnil]
    exact (pass2Go_single (splitSentences text) _ mc h).1

theorem identifyGaps_cfg_congr (ms : Option (List MsgEntry)) (e : Rat)
    (cfg1 cfg2 : ExtractionConfig) (src : Option String) (now : Nat) (iso : String)
    (h1 : cfg1.entropyThreshold.getD ratHalf = cfg2.entropyThreshold.getD ratHalf)
    (h2 : cfg1.keywords.getD [] = cfg2.keywords.getD [])
    (h3 : jsOrInt cfg1.maxGapsPerExchange 2 = jsOrInt cfg2.maxGapsPerExchange 2) :
    identifyGaps ms e cfg1 src now iso = identifyGaps ms e cfg2 src now iso := by
  unfold identifyGaps
  rw [h1, h2, h3]

/-!
## Fixture inputs used by the concrete evaluations
-/

/-- The wonder sentence of the specification scenario. -/
def ternsText : String :=
  "I wonder how the tidal patterns actually affect migration timing for arctic terns."

/-- A single user message carrying `ternsText`. -/
def ternsMsg : MsgEntry := .obj ⟨some "user", .str ternsText⟩

/-- A context block followed by genuine user text, with no second header marker. -/
def blockText : String :=
  "[CONTINUITY CONTEXT]\nRecalled memories from a prior session.\nI wonder how the tidal patterns actually affect migration timing for arctic terns."

def cascadesHereText : String :=
  "I don\x27t fully understand how the error handling cascades here."

def cascadesText : String :=
  "I don\x27t fully understand how the error handling cascades."

/-- The two near-duplicate user messages of the dedup scenario. -/
def c8Msgs : List MsgEntry :=
  [.obj ⟨some "user", .str cascadesHereText⟩, .obj ⟨some "user", .str cascadesText⟩]

/-- A message list exercising every malformed shape except a null entry. -/
def malformedMsgs : List MsgEntry :=
  [.prim true, .prim false, .obj ⟨some "assistant", .str "an explanation"⟩,
   .obj ⟨none, .str "no role here"⟩, .obj ⟨some "user", .other "12345" true⟩,
   .obj ⟨some "user", .arr [.null, .fields "" "", .fields "" "short"]⟩]

/-- Six trivially skipped entries, used by the window-truncation witness. -/
def sixPrims : List MsgEntry :=
  [.prim true, .prim true, .prim true, .prim true, .prim true, .prim true]

/-!
## Claims
-/

/-- C1: for every message list, entropy and configuration, if the supplied entropy
is strictly below the effective `entropyThreshold` and no configured keyword occurs
case-insensitively as a substring of the sanitized, newline-joined corpus of
qualifying user messages, then `identifyGaps` returns an empty result; and if the
sanitized corpus is empty, `identifyGaps` returns an empty result regardless of the
entropy value. -/
theorem identifyGaps_admission_gate
    (ms : Option (List MsgEntry)) (entropy : Rat) (cfg : ExtractionConfig)
    (src : Option String) (now : Nat) (iso : String) (parts : List (List Char))
    (hc : collectParts (lastN 6 (ms.getD [])) = .ok parts) :
    (conversationTextOf parts = [] →
      identifyGaps ms entropy cfg src now iso = .ok []) ∧
    (entropy < cfg.entropyThreshold.getD ratHalf →
      (∀ k ∈ cfg.keywords.getD [],
        containsSub (lowerChars k.data) (lowerChars (conversationTextOf parts)) = false) →
      identifyGaps ms entropy cfg src now iso = .ok []) := by
  unfold identifyGaps
  rw [hc]
  dsimp only
  constructor
  · intro he
    simp [he]
  · intro hlt hkw
    by_cases he : conversationTextOf parts = []
    · simp [he]
    · have hhit :
          keywordHitOf (cfg.keywords.getD []) (lowerChars (conversationTextOf parts)) = false := by
        simp only [keywordHitOf, List.any_eq_false]
        intro k hk
        simp [hkw k hk]
      rw [if_neg he, if_pos ⟨hlt, hhit⟩]

/-- C1 witness: an empty message list gives an empty corpus, and `identifyGaps`
returns the empty result even at entropy 5. -/
theorem identifyGaps_admission_gate_witness :
    collectParts (lastN 6 ((some ([] : List MsgEntry)).getD [])) = .ok [] ∧
    identifyGaps (some []) 5 ⟨none, none, none⟩ none 0 "" = .ok [] :=
  ⟨rfl, (identifyGaps_admission_gate (some []) 5 ⟨none, none, none⟩ none 0 "" [] rfl).1 rfl⟩

/-- C2: for every input message list, entropy, and configuration whose
`maxGapsPerExchange` is an integer at least 1, the sequence of gaps returned by
`identifyGaps` has length at most `maxGapsPerExchange`. -/
theorem identifyGaps_respects_cap
    (ms : Option (List MsgEntry)) (entropy : Rat) (thr : Option Rat)
    (kw : Option (List String)) (m : Int) (hm : 1 ≤ m) (src : Option String)
    (now : Nat) (iso : String) (l : List GapRecord)
    (h : identifyGaps ms entropy ⟨thr, kw, some m⟩ src now iso = .ok l) :
    (l.length : Int) ≤ m := by
  unfold identifyGaps at h
  cases hc : collectParts (lastN 6 (ms.getD [])) with
  | error e => rw [hc] at h; simp at h
  | ok parts =>
    rw [hc] at h
    dsimp only at h
    split_ifs at h with h1 h2
    · simp only [Except.ok.injEq] at h
      subst h
      simp
      omega
    · simp only [Except.ok.injEq] at h
      subst h
      simp
      omega
    · simp only [Except.ok.injEq] at h
      subst h
      rw [wrapRecords_length]
      have hm0 : m ≠ 0 := by omega
      simp only [jsOrInt, if_neg hm0]
      exact extractGapsFromText_cap_core _ m (by omega)

/-- C2 witness: with cap 1 and an empty message list the result is empty and the
bound holds. -/
theorem identifyGaps_respects_cap_witness :
    (1 : Int) ≤ 1 ∧ ((([] : List GapRecord)).length : Int) ≤ 1 :=
  ⟨by norm_num,
   identifyGaps_respects_cap (some []) 0 none none 1 (by norm_num) none 0 "" [] rfl⟩

/-- C3: for every input, no two gap strings in the output of a single extraction
call have equal normalized forms, where the normalized form is the lowercase text
with every whitespace run collapsed to a single space (`normalizeGap`). -/
theorem extractGapsFromText_dedup (text : List Char) (maxCount : Int) :
    (extractGapsFromText text maxCount).Pairwise
      (fun a b => normalizeGap a ≠ normalizeGap b) := by
  unfold extractGapsFromText
  dsimp only
  have h1 := pass1Go_inv (GAP_PATTERNS.flatMap fun p => findMatches p text) [] [] maxCount
    (by simp) (by simp)
  split_ifs with hd
  · exact h1.2
  · exact (pass2Go_inv (splitSentences text) _ _ maxCount h1.1 h1.2).2

/-- C4 counterexample: with `maxGapsPerExchange = 0` the claim predicts an empty
output, but on a single wonder-sentence message (entropy 0.8, threshold 0.5) the
call returns one gap: the integer 0 is falsy, so `maxGapsPerExchange || 2` silently
restores the default cap 2. -/
theorem maxGaps_zero_not_empty_cx :
    gapQuestions (identifyGaps (some [ternsMsg]) ratFourFifths
        ⟨some ratHalf, none, some 0⟩ (some "src") 0 "t") = .ok [ternsText] ∧
    (ternsText :: []) ≠ ([] : List String) :=
  ⟨by rfl, by simp⟩

/-- C4 amended: a configured `maxGapsPerExchange` of 0 is falsy and is replaced by
the default cap 2 (the call behaves exactly as if the key were absent), while a
negative value yields at most one gap (the first accepted candidate already meets
the cap check, which fires only after a push). -/
theorem maxGaps_zero_default_negative_single :
    (∀ (thr : Option Rat) (kw : Option (List String)) (ms : Option (List MsgEntry))
        (e : Rat) (src : Option String) (now : Nat) (iso : String),
        identifyGaps ms e ⟨thr, kw, some 0⟩ src now iso =
          identifyGaps ms e ⟨thr, kw, none⟩ src now iso) ∧
    (∀ (text : List Char) (m : Int), m < 0 → (extractGapsFromText text m).length ≤ 1) := by
  constructor
  · intro thr kw ms e src now iso
    exact identifyGaps_cfg_congr ms e ⟨thr, kw, some 0⟩ ⟨thr, kw, none⟩ src now iso rfl rfl rfl
  · intro text m hm
    exact extractGapsFromText_single text m (by omega)

/-- C4 witness: both parts instantiated, the negativity hypothesis discharged at
`m = -1`. -/
theorem maxGaps_zero_default_negative_single_witness :
    identifyGaps (some []) 1 ⟨none, none, some 0⟩ none 0 "" =
      identifyGaps (some []) 1 ⟨none, none, none⟩ none 0 "" ∧
    ((-1 : Int) < 0 ∧ (extractGapsFromText ternsText.data (-1)).length ≤ 1) :=
  ⟨maxGaps_zero_default_negative_single.1 none none (some []) 1 none 0 "",
   by norm_num,
   maxGaps_zero_default_negative_single.2 ternsText.data (-1) (by norm_num)⟩

/-- C5: evaluation of the code at the failing input.  A user message consisting of
one recognized bracketed block followed by a genuine gap-bearing sentence yields an
empty result: the lazy `[\s\S]*?` of `CONTEXT_BLOCK_PATTERN` is delimited only by a
following header marker or end of input, so with no second header the block match
swallows the trailing user text and sanitization leaves the empty string. -/
theorem context_block_swallows_trailing_text :
    identifyGaps (some [.obj ⟨some "user", .str blockText⟩]) ratFourFifths
      ⟨some ratHalf, none, none⟩ (some "src") 0 "t" = .ok [] ∧
    stripContextBlocks blockText.data = [] :=
  ⟨by rfl, by rfl⟩

/-- C6 counterexample: a `null` entry in the message list makes `identifyGaps`
throw (the source reads `msg.role` before any null guard), modelled as
`Except.error ()` — so the entry point does not hold for null entries. -/
theorem identifyGaps_null_entry_raises :
    identifyGaps (some [MsgEntry.null]) 0 ⟨none, none, none⟩ none 0 "" = .error () :=
  rfl

/-- C6 amended: for every input whose recent window contains no `null`/`undefined`
entry, `identifyGaps` never throws — malformed content shapes (non-string,
non-array content, parts without text fields, primitive entries) all degrade
gracefully and the call returns a result. -/
theorem identifyGaps_no_raise_without_null
    (ms : Option (List MsgEntry)) (e : Rat) (cfg : ExtractionConfig)
    (src : Option String) (now : Nat) (iso : String)
    (h : ∀ m ∈ lastN 6 (ms.getD []), m ≠ MsgEntry.null) :
    ∃ l, identifyGaps ms e cfg src now iso = .ok l := by
  obtain ⟨ps, hps⟩ := collectParts_ok _ h
  unfold identifyGaps
  rw [hps]
  dsimp only
  split_ifs
  · exact ⟨_, rfl⟩
  · exact ⟨_, rfl⟩
  · exact ⟨_, rfl⟩

/-- C6 witness: a list exercising primitive entries, a missing role, non-string
content and parts without text fields; the call returns without error. -/
theorem identifyGaps_no_raise_without_null_witness :
    (∀ m ∈ lastN 6 ((some malformedMsgs).getD []), m ≠ MsgEntry.null) ∧
    ∃ l, identifyGaps (some malformedMsgs) 1 ⟨none, none, none⟩ none 0 "" = .ok l :=
  ⟨by decide,
   identifyGaps_no_raise_without_null (some malformedMsgs) 1 ⟨none, none, none⟩ none 0 ""
     (by decide)⟩

/-- C7 counterexample: the output records embed the clock (`Date.now()`) in their
`id` field, so two runs of `identifyGaps` over the same message window, entropy and
configuration made at different instants produce unequal results
(`gap_0_0` versus `gap_1_0`). -/
theorem identifyGaps_differs_across_timestamps :
    identifyGaps (some [ternsMsg]) ratFourFifths ⟨some ratHalf, none, none⟩
        (some "src") 0 "t" ≠
      identifyGaps (some [ternsMsg]) ratFourFifths ⟨some ratHalf, none, none⟩
        (some "src") 1 "t" :=
  fun h => absurd (congrArg firstId h) (by decide)

/-- C7 amended: extraction is deterministic up to the clock — for every fixed
message window, entropy and configuration, the sequence of extracted gap question
strings is identical across any two runs; only the timestamp-bearing `id` and the
defaulted `source` fields can differ. -/
theorem identifyGaps_questions_time_stable
    (ms : Option (List MsgEntry)) (e : Rat) (cfg : ExtractionConfig)
    (src : Option String) (n1 : Nat) (iso1 : String) (n2 : Nat) (iso2 : String) :
    gapQuestions (identifyGaps ms e cfg src n1 iso1) =
      gapQuestions (identifyGaps ms e cfg src n2 iso2) := by
  unfold identifyGaps gapQuestions
  cases hc : collectParts (lastN 6 (ms.getD [])) with
  | error e => rfl
  | ok parts =>
    dsimp only
    split_ifs
    · rfl
    · rfl
    · simp only [Except.map]
      rw [wrapRecords_questions, wrapRecords_questions]

/-- C8 counterexample: on the two near-duplicate messages the output contains both
matched sentences — they differ textually (by the word "here"), so their normalized
forms differ and deduplication keeps both; the claim that exactly one survives is
false at this input. -/
theorem near_duplicates_not_merged_cx :
    gapQuestions (identifyGaps (some c8Msgs) ratFourFifths ⟨some ratHalf, none, none⟩
        (some "src") 0 "t") = .ok [cascadesHereText, cascadesText] ∧
    cascadesHereText ≠ cascadesText :=
  ⟨by rfl, by decide⟩

/-- C8 amended: both matched sentences appear in the output (under the default cap
of 2): deduplication compares exact normalized forms, and the two sentences
normalize differently, so near-duplicates that are not textually equal after
normalization both survive. -/
theorem near_duplicates_both_survive :
    ∃ l, gapQuestions (identifyGaps (some c8Msgs) ratFourFifths ⟨some ratHalf, none, none⟩
        (some "src") 0 "t") = .ok l ∧
      cascadesHereText ∈ l ∧ cascadesText ∈ l :=
  ⟨[cascadesHereText, cascadesText], by rfl, by simp, by simp⟩

/-- C9: on the single wonder-sentence message with entropy 0.8 against threshold
0.5, the output contains exactly one gap, and that gap begins with
"I wonder how the tidal patterns". -/
theorem terns_scenario_single_gap :
    gapQuestions (identifyGaps (some [ternsMsg]) ratFourFifths ⟨some ratHalf, none, none⟩
        (some "src") 0 "t") = .ok [ternsText] ∧
    ("I wonder how the tidal patterns".data).isPrefixOf ternsText.data = true :=
  ⟨by rfl, by decide⟩

/-- C10: the engine itself truncates the window — for any two message lists that
agree on their last six entries, and the same entropy, configuration, source and
clock, `identifyGaps` extracts the same sequence of gap strings. -/
theorem identifyGaps_window_last_six
    (ms1 ms2 : List MsgEntry) (h : lastN 6 ms1 = lastN 6 ms2) (e : Rat)
    (cfg : ExtractionConfig) (src : Option String) (now : Nat) (iso : String) :
    gapQuestions (identifyGaps (some ms1) e cfg src now iso) =
      gapQuestions (identifyGaps (some ms2) e cfg src now iso) := by
  unfold identifyGaps
  simp only [Option.getD_some]
  rw [h]

/-- C10 witness: a seven-entry list and its six-entry tail agree on their last six
entries and give the same extracted gap strings. -/
theorem identifyGaps_window_last_six_witness :
    lastN 6 (MsgEntry.prim true :: sixPrims) = lastN 6 sixPrims ∧
    gapQuestions (identifyGaps (some (MsgEntry.prim true :: sixPrims)) 0
        ⟨none, none, none⟩ none 0 "") =
      gapQuestions (identifyGaps (some sixPrims) 0 ⟨none, none, none⟩ none 0 "") :=
  ⟨by decide,
   identifyGaps_window_last_six (MsgEntry.prim true :: sixPrims) sixPrims (by decide) 0
     ⟨none, none, none⟩ none 0 ""⟩
